import Mathlib

/-!
Shallow embedding of the rulebook compiler (`src/server/rules/rulebook-builder.ts`,
`src/server/rules/rulebook-api.ts`, schemas in `src/server/rules/schemas.ts`) and of
the board topology engine (`src/server/board/topology.ts`, `src/server/board/schemas.ts`)
of the fvtt-risklegacy-v2 repository, together with theorems settling the spec claims.

JavaScript objects with string keys are modelled as association lists in insertion
order (`Object.entries` iterates insertion order; property assignment replaces the
value in place when the key exists and appends otherwise).  Zod-parsed documents are
modelled with every defaulted field present (Zod `.default` fills them in at parse
time), and `.optional()` fields as `Option`.  In-place mutation of a value is
modelled as functional update; where object identity itself matters (the deep-clone
claim) a small explicit heap of rulebook objects is used.
-/

namespace RiskLegacy

/-- Replace the value stored at `k` in an insertion-ordered association list if the
key is present (keeping its position), otherwise append the binding at the end.
This is JavaScript property assignment `obj[k] = v`. -/
def setKey {α : Type} : List (String × α) → String → α → List (String × α)
  | [], k, v => [(k, v)]
  | (k0, v0) :: rest, k, v =>
    if k0 = k then (k, v) :: rest else (k0, v0) :: setKey rest k v

/-- Property lookup `obj[k]` on an association list (keys are unique in a
JavaScript object, so first match is the match). -/
def lookupKey {α : Type} : List (String × α) → String → Option α
  | [], _ => none
  | (k0, v0) :: rest, k => if k0 = k then some v0 else lookupKey rest k

/-- A rule, `RuleSchema` from `schemas.ts`.  Defaulted fields (`priority`,
`modifiers`, `tags`, `applies_to`) are always present after Zod parsing. -/
structure Rule where
  id : String
  text : String
  priority : Int
  modifiers : List String
  tags : List String
  phase : Option String
  applies_to : String
deriving DecidableEq

/-- An example scenario, `ExampleSchema` from `schemas.ts`. -/
structure RuleExample where
  scenario : String
  explanation : String
deriving DecidableEq

/-- A subsection, `SubsectionSchema` from `schemas.ts`; `rules`, `examples` and
`related` are defaulted by Zod, hence always present. -/
structure Subsection where
  title : String
  content : String
  rules : List Rule
  examples : List RuleExample
  related : List String
deriving DecidableEq

/-- A section, `SectionSchema` from `schemas.ts`; `subsections` is a required
record of subsections. -/
structure Section where
  id : String
  title : String
  summary : String
  subsections : List (String × Subsection)
deriving DecidableEq

/-- Rulebook metadata object from `RulebookSchema`. -/
structure RulebookMetadata where
  title : String
  description : String
  lastUpdated : String
deriving DecidableEq

/-- A glossary term, `GlossaryTermSchema` from `schemas.ts`. -/
structure GlossaryTerm where
  term : String
  definition : String
  related : List String
deriving DecidableEq

/-- A faction power, `FactionPowerSchema` from `schemas.ts`. -/
structure FactionPower where
  id : String
  text : String
  trigger : String
deriving DecidableEq

/-- Faction information, `FactionInfoSchema` from `schemas.ts`. -/
structure FactionInfo where
  id : String
  name : String
  description : String
  starting_powers : List FactionPower
  strategy_notes : Option String
deriving DecidableEq

/-- The complete rulebook document, `RulebookSchema` from `schemas.ts`. -/
structure Rulebook where
  version : String
  metadata : RulebookMetadata
  sections : List (String × Section)
  factions : Option (List (String × FactionInfo))
  glossary : List GlossaryTerm
deriving DecidableEq

/-- The `changes` payload of a `modify_rule` modifier
(`ModifyRuleModifierSchema.changes` in `schemas.ts`): five optional fields, a
field being `some` models the key being present in the JSON object. -/
structure RuleChanges where
  text : Option String
  priority : Option Int
  tags : Option (List String)
  phase : Option String
  applies_to : Option String
deriving DecidableEq

/-- The discriminated union `RuleModifierSchema` from `schemas.ts`.  The optional
`description` field is carried by no code path and is omitted. -/
inductive RuleModifier where
  | add_section (section_id : String) (data : Section)
  | modify_rule (rule_id : String) (changes : RuleChanges)
  | add_rule (section_id : String) (subsection_id : String) (rule : Rule)
  | remove_rule (rule_id : String)
  | replace_section (section_id : String) (data : Section)
  | add_subsection (section_id : String) (subsection_id : String) (data : Subsection)
deriving DecidableEq

/-- A pack modifier bundle, `PackModifiersSchema` from `schemas.ts`. -/
structure PackModifiers where
  pack : String
  name : String
  description : String
  modifiers : List RuleModifier
deriving DecidableEq

/-- A compiled campaign rulebook, `CampaignRulebookSchema` from `schemas.ts`. -/
structure CampaignRulebook where
  campaignId : String
  baseRules : Rulebook
  unlockedPacks : List String
  modifiers : List RuleModifier
  compiledRulebook : Rulebook
  version : String
deriving DecidableEq

/-- The rule replacement of the `modify_rule` branch (`rulebook-builder.ts` lines
169-173): object spread `\x7b ...rule, ...modifier.changes \x7d` overrides exactly
the keys present in `changes`, then the `modifiers` key is set to the old list with
`"modified"` appended. -/
def applyChanges (r : Rule) (c : RuleChanges) : Rule :=
  { r with
    text := c.text.getD r.text
    priority := c.priority.getD r.priority
    tags := c.tags.getD r.tags
    phase := match c.phase with | some p => some p | none => r.phase
    applies_to := c.applies_to.getD r.applies_to
    modifiers := r.modifiers ++ ["modified"] }

/-- The `findIndex`-and-replace over one rule array in the `modify_rule` branch:
`some` with the first rule of matching id replaced, `none` when no rule matches. -/
def replaceFirstRule (rid : String) (c : RuleChanges) : List Rule → Option (List Rule)
  | [] => none
  | r :: rs =>
    if r.id = rid then some (applyChanges r c :: rs)
    else (replaceFirstRule rid c rs).map (fun rs1 => r :: rs1)

/-- The `findIndex`-and-`splice` over one rule array in the `remove_rule` branch:
`some` with the first rule of matching id removed, `none` when no rule matches. -/
def removeFirstRule (rid : String) : List Rule → Option (List Rule)
  | [] => none
  | r :: rs =>
    if r.id = rid then some rs
    else (removeFirstRule rid rs).map (fun rs1 => r :: rs1)

/-- The subsection loop of the `modify_rule` branch: the first subsection (in
record order) containing a rule of matching id has that rule replaced, and the
inner loop breaks; `none` when no subsection contains a match. -/
def modifyRuleInSubsections (rid : String) (c : RuleChanges) :
    List (String × Subsection) → Option (List (String × Subsection))
  | [] => none
  | (k, ss) :: rest =>
    match replaceFirstRule rid c ss.rules with
    | some rs1 => some ((k, { ss with rules := rs1 }) :: rest)
    | none => (modifyRuleInSubsections rid c rest).map (fun l => (k, ss) :: l)

/-- The section loop of the `modify_rule` branch (`ruleFound` flag and breaks). -/
def modifyRuleInSections (rid : String) (c : RuleChanges) :
    List (String × Section) → Option (List (String × Section))
  | [] => none
  | (k, sec) :: rest =>
    match modifyRuleInSubsections rid c sec.subsections with
    | some subs1 => some ((k, { sec with subsections := subs1 }) :: rest)
    | none => (modifyRuleInSections rid c rest).map (fun l => (k, sec) :: l)

/-- The subsection loop of the `remove_rule` branch. -/
def removeRuleInSubsections (rid : String) :
    List (String × Subsection) → Option (List (String × Subsection))
  | [] => none
  | (k, ss) :: rest =>
    match removeFirstRule rid ss.rules with
    | some rs1 => some ((k, { ss with rules := rs1 }) :: rest)
    | none => (removeRuleInSubsections rid rest).map (fun l => (k, ss) :: l)

/-- The section loop of the `remove_rule` branch (`removed` flag and breaks). -/
def removeRuleInSections (rid : String) :
    List (String × Section) → Option (List (String × Section))
  | [] => none
  | (k, sec) :: rest =>
    match removeRuleInSubsections rid sec.subsections with
    | some subs1 => some ((k, { sec with subsections := subs1 }) :: rest)
    | none => (removeRuleInSections rid rest).map (fun l => (k, sec) :: l)

/-- `RulebookBuilder.applyModifier` (`rulebook-builder.ts` lines 110-215).  The TS
function mutates `rulebook` in place; here the updated document is returned.  Every
failure path (missing target section / subsection / rule) returns the document
unchanged, mirroring the logged-warning no-ops of the source. -/
def applyModifier (rulebook : Rulebook) (modifier : RuleModifier) : Rulebook :=
  match modifier with
  | .add_section section_id data =>
    { rulebook with sections := setKey rulebook.sections section_id data }
  | .add_subsection section_id subsection_id data =>
    match lookupKey rulebook.sections section_id with
    | some targetSection =>
      let targetSection1 : Section :=
        { targetSection with
            subsections := setKey targetSection.subsections subsection_id data }
      { rulebook with sections := setKey rulebook.sections section_id targetSection1 }
    | none => rulebook
  | .add_rule section_id subsection_id rule =>
    match lookupKey rulebook.sections section_id with
    | some targetSection =>
      match lookupKey targetSection.subsections subsection_id with
      | some targetSubsection =>
        let targetSubsection1 : Subsection :=
          { targetSubsection with rules := targetSubsection.rules ++ [rule] }
        let targetSection1 : Section :=
          { targetSection with
              subsections := setKey targetSection.subsections subsection_id targetSubsection1 }
        { rulebook with sections := setKey rulebook.sections section_id targetSection1 }
      | none => rulebook
    | none => rulebook
  | .modify_rule rule_id changes =>
    match modifyRuleInSections rule_id changes rulebook.sections with
    | some secs1 => { rulebook with sections := secs1 }
    | none => rulebook
  | .remove_rule rule_id =>
    match removeRuleInSections rule_id rulebook.sections with
    | some secs1 => { rulebook with sections := secs1 }
    | none => rulebook
  | .replace_section section_id data =>
    { rulebook with sections := setKey rulebook.sections section_id data }

/-- Lexicographic comparison of character lists by code point, the order JavaScript
uses to compare strings (by code unit; identical for the basic plane). -/
def charListLt : List Char → List Char → Bool
  | [], [] => false
  | [], _ :: _ => true
  | _ :: _, [] => false
  | a :: as, b :: bs =>
    if a.toNat < b.toNat then true
    else if b.toNat < a.toNat then false
    else charListLt as bs

/-- JavaScript string comparison `a < b`. -/
def jsStringLt (a b : String) : Bool := charListLt a.data b.data

/-- One `Array.prototype.sort()` insertion step under the default comparator:
an element is placed before the first resident element not below it. -/
def insertSorted (s : String) : List String → List String
  | [] => [s]
  | t :: ts => if jsStringLt t s then t :: insertSorted s ts else s :: t :: ts

/-- JavaScript `Array.prototype.sort()` with the default comparator on an array of
strings: sorts lexicographically.  The TS call sorts the array in place; the
model returns the sorted contents and callers thread them explicitly. -/
def sortJS (l : List String) : List String := l.foldr insertSorted []

/-- A repository (file-system) access performed by the builder: reading
`base-rules.json` or reading `modifiers/<pack>.json`. -/
inductive RepoCall where
  | readBase
  | readPack (name : String)
deriving DecidableEq

/-- The environment of the builder: the content of `base-rules.json` after Zod
parsing (`none` models a read or validation failure), the content of each pack
modifier file (`none` models a missing or invalid file), and the value of
`new Date().toISOString()` at compilation time. -/
structure Env where
  base : Option Rulebook
  packs : String → Option PackModifiers
  now : String

/-- The mutable fields of the `RulebookBuilder` class: `baseRules`,
`modifierCache` and `compiledCache`. -/
structure BuilderState where
  baseRules : Option Rulebook
  modifierCache : List (String × PackModifiers)
  compiledCache : List (String × CampaignRulebook)
deriving DecidableEq

/-- `RulebookBuilder.loadBaseRules`: returns the cached document when present,
otherwise reads and caches the base file, throwing when the read fails.  The
result carries the new builder state and the repository accesses performed. -/
def loadBaseRules (env : Env) (st : BuilderState) :
    Except String Rulebook × BuilderState × List RepoCall :=
  match st.baseRules with
  | some rb => (Except.ok rb, st, [])
  | none =>
    match env.base with
    | some rb => (Except.ok rb, { st with baseRules := some rb }, [RepoCall.readBase])
    | none => (Except.error "Failed to load base rules", st, [RepoCall.readBase])

/-- `RulebookBuilder.loadPackModifiers`: cache-checked; on a miss it reads the
pack file, caching it on success and returning a synthetic empty `PackModifiers`
(without caching) when the file is missing or invalid. -/
def loadPackModifiers (env : Env) (st : BuilderState) (packName : String) :
    PackModifiers × BuilderState × List RepoCall :=
  match lookupKey st.modifierCache packName with
  | some pm => (pm, st, [])
  | none =>
    match env.packs packName with
    | some pm =>
      (pm, { st with modifierCache := setKey st.modifierCache packName pm },
       [RepoCall.readPack packName])
    | none =>
      ({ pack := packName, name := packName,
         description := "No modifiers available", modifiers := [] },
       st, [RepoCall.readPack packName])

/-- The pack loop of `buildCampaignRulebook` (lines 240-248): for each pack name
in order, load its modifiers, append them to the flat provenance list, and apply
each one to the working document. -/
def applyPacksLoop (env : Env) :
    List String → BuilderState → List RuleModifier → Rulebook →
    List RuleModifier × Rulebook × BuilderState × List RepoCall
  | [], st, acc, rb => (acc, rb, st, [])
  | p :: ps, st, acc, rb =>
    let r1 := loadPackModifiers env st p
    let rb1 := r1.1.modifiers.foldl applyModifier rb
    let rest := applyPacksLoop env ps r1.2.1 (acc ++ r1.1.modifiers) rb1
    (rest.1, rest.2.1, rest.2.2.1, r1.2.2 ++ rest.2.2.2)

/-- The observable outcome of one `buildCampaignRulebook` call: the returned (or
thrown) value, the final contents of the caller-supplied `unlockedPacks` array
(which the in-place `sort()` may have reordered), the new builder state, and the
repository accesses performed. -/
structure BuildOutcome where
  result : Except String CampaignRulebook
  packsArr : List String
  state : BuilderState
  repoCalls : List RepoCall

/-- The cache key of line 225: `campaignId + ":" + sorted.join(",")`. -/
def cacheKeyOf (campaignId : String) (sorted : List String) : String :=
  campaignId ++ ":" ++ String.intercalate "," sorted

/-- `RulebookBuilder.buildCampaignRulebook` (lines 220-279).  `unlockedPacks.sort()`
sorts the caller's array in place, so every later use of `unlockedPacks` (the pack
loop, the version string, the stored `unlockedPacks` field) sees the sorted order;
the deep clone `JSON.parse(JSON.stringify(baseRules))` is a value copy. -/
def buildCampaignRulebook (env : Env) (st : BuilderState)
    (campaignId : String) (unlockedPacks : List String) : BuildOutcome :=
  let sorted := sortJS unlockedPacks
  match lookupKey st.compiledCache (cacheKeyOf campaignId sorted) with
  | some cached => ⟨Except.ok cached, sorted, st, []⟩
  | none =>
    match loadBaseRules env st with
    | (Except.error e, st1, c1) => ⟨Except.error e, sorted, st1, c1⟩
    | (Except.ok baseRules, st1, c1) =>
      let loopOut := applyPacksLoop env sorted st1 [] baseRules
      let allModifiers := loopOut.1
      let st2 := loopOut.2.2.1
      let c2 := loopOut.2.2.2
      let version :=
        if 0 < sorted.length then baseRules.version ++ "+" ++ String.intercalate "+" sorted
        else baseRules.version
      let compiled1 := loopOut.2.1
      let compiledRulebook : Rulebook :=
        { compiled1 with metadata := { compiled1.metadata with lastUpdated := env.now } }
      let campaignRulebook : CampaignRulebook :=
        { campaignId := campaignId, baseRules := baseRules, unlockedPacks := sorted,
          modifiers := allModifiers, compiledRulebook := compiledRulebook,
          version := version }
      let newCache := setKey st2.compiledCache (cacheKeyOf campaignId sorted) campaignRulebook
      let st3 : BuilderState := { st2 with compiledCache := newCache }
      ⟨Except.ok campaignRulebook, sorted, st3, c1 ++ c2⟩

/-- Character-list version of `String.startsWith` for the substring test. -/
def startsList : List Char → List Char → Bool
  | [], _ => true
  | _ :: _, [] => false
  | a :: as, b :: bs => a = b && startsList as bs

/-- Containment of `need` as a contiguous run inside `hay`. -/
def occursList (need : List Char) : List Char → Bool
  | [] => startsList need []
  | c :: t => startsList need (c :: t) || occursList need t

/-- JavaScript `hay.includes(need)`: substring containment. -/
def strIncludes (hay need : String) : Bool :=
  occursList need.data hay.data

/-- The `continue` condition of the section loop of `searchRules` (line 314):
skip when a non-empty `sections` filter was provided that does not include this
section's key. -/
def sectionSkipOf (sections : Option (List String)) (sectionId : String) : Bool :=
  match sections with
  | some ss => 0 < ss.length && !ss.contains sectionId
  | none => false

/-- The `textMatch` condition of `searchRules` (line 321); the query is passed
already lower-cased. -/
def textMatchOf (queryLower : String) (rule : Rule) : Bool :=
  strIncludes rule.text.toLower queryLower

/-- The `tagMatch` condition of `searchRules` (lines 324-326). -/
def tagMatchOf (tags : Option (List String)) (rule : Rule) : Bool :=
  match tags with
  | some ts => if 0 < ts.length then ts.any (fun t => rule.tags.contains t) else true
  | none => true

/-- `RulebookBuilder.searchRules` (lines 308-336), with the `results.push` loop
rendered as a fold carrying the results array. -/
def searchRules (rulebook : Rulebook) (query : String)
    (sections : Option (List String)) (tags : Option (List String)) : List Rule :=
  let queryLower := query.toLower
  rulebook.sections.foldl
    (fun results p =>
      if sectionSkipOf sections p.1 then results
      else
        p.2.subsections.foldl
          (fun results q =>
            q.2.rules.foldl
              (fun results rule =>
                if textMatchOf queryLower rule && tagMatchOf tags rule then
                  results ++ [rule]
                else results)
              results)
          results)
    []

/-- The section-path computation of the `POST /search` handler
(`rulebook-api.ts` lines 146-155): `sectionPath` starts as `"unknown"`; the outer
loop over sections never breaks, the inner loop over subsections breaks at the
first subsection containing a rule of the given id. -/
def sectionPath (rulebook : Rulebook) (ruleId : String) : String :=
  rulebook.sections.foldl
    (fun acc p =>
      match p.2.subsections.find? (fun q => q.2.rules.any (fun r => r.id = ruleId)) with
      | some q => p.1 ++ "." ++ q.1
      | none => acc)
    "unknown"

/-- A territory, `TerritorySchema` from `board/schemas.ts`. -/
structure Territory where
  id : String
  name : String
  continent : String
  adjacentTo : List String
  population : Option Int
  coordinates : Option (Int × Int)
deriving DecidableEq

/-- A continent, `ContinentSchema` from `board/schemas.ts`. -/
structure Continent where
  id : String
  name : String
  bonus : Int
  color : String
  territories : List String
deriving DecidableEq

/-- Board metadata from `BoardSchema`. -/
structure BoardMetadata where
  description : String
  totalTerritories : Int
  lastUpdated : String
deriving DecidableEq

/-- The complete board document, `BoardSchema` from `board/schemas.ts`. -/
structure Board where
  version : String
  territories : List Territory
  continents : List Continent
  metadata : BoardMetadata
deriving DecidableEq

/-- Lookup in the `territoryMap` built by `BoardTopology.initialize`: the map is
populated by iterating `board.territories` and calling `Map.set`, so for a
duplicated id the last territory in document order wins. -/
def territoryById (b : Board) (id : String) : Option Territory :=
  b.territories.reverse.find? (fun t => t.id = id)

/-- The inner loop of `validateBidirectionalAdjacencies` for one territory:
walks its `adjacentTo` entries in order, throwing at the first entry that
resolves to no territory, and collecting a `(from, to)` pair for every
non-reciprocated adjacency (modelling the `console.warn` calls). -/
def validateAdjEntries (b : Board) (tid : String) :
    List String → Except String (List (String × String))
  | [] => Except.ok []
  | aid :: rest =>
    match territoryById b aid with
    | none =>
      Except.error ("Territory " ++ tid ++ " references non-existent adjacent territory " ++ aid)
    | some adj =>
      match validateAdjEntries b tid rest with
      | Except.error e => Except.error e
      | Except.ok ws =>
        Except.ok ((if adj.adjacentTo.contains tid then [] else [(tid, aid)]) ++ ws)

/-- The outer loop of `BoardTopology.validateBidirectionalAdjacencies`
(`topology.ts` lines 49-65). -/
def validateBidirectionalAdjacencies (b : Board) :
    List Territory → Except String (List (String × String))
  | [] => Except.ok []
  | t :: ts =>
    match validateAdjEntries b t.id t.adjacentTo with
    | Except.error e => Except.error e
    | Except.ok ws =>
      match validateBidirectionalAdjacencies b ts with
      | Except.error e => Except.error e
      | Except.ok ws1 => Except.ok (ws ++ ws1)

/-- The `BoardTopology` constructor / `initialize` (`topology.ts` lines 15-43):
index construction cannot fail, so construction succeeds exactly when
`validateBidirectionalAdjacencies` does; on success it returns the warnings
logged. -/
def initTopology (b : Board) : Except String (List (String × String)) :=
  validateBidirectionalAdjacencies b b.territories

/-- `BoardTopology.areTerritoriesAdjacent` (`topology.ts` lines 115-121): the
`adjacencyCache` holds, per territory id, the `Set` of the `adjacentTo` list of
the (last) territory with that id; a missing entry yields `false`. -/
def areTerritoriesAdjacent (b : Board) (territoryId1 territoryId2 : String) : Bool :=
  match territoryById b territoryId1 with
  | none => false
  | some t => t.adjacentTo.contains territoryId2

/-- `BoardTopology.validateMovement` (`topology.ts` lines 127-138). -/
def validateMovement (b : Board) (fromId toId : String) : Bool :=
  match territoryById b fromId, territoryById b toId with
  | some _, some _ => areTerritoriesAdjacent b fromId toId
  | _, _ => false

/-- A heap of rulebook objects, used to model object identity for the deep-clone
claim: cell indices are references, `JSON.parse(JSON.stringify(x))` allocates a
fresh cell holding an equal value, and in-place mutation writes through a
reference. -/
structure RulebookHeap where
  cells : List Rulebook

/-- Dereference a rulebook object. -/
def readRef (h : RulebookHeap) (r : Nat) : Option Rulebook :=
  h.cells.get? r

/-- Overwrite the object a reference points to (in-place mutation). -/
def writeRef (h : RulebookHeap) (r : Nat) (rb : Rulebook) : RulebookHeap :=
  ⟨h.cells.set r rb⟩

/-- `JSON.parse(JSON.stringify(x))` at reference `r`: allocate a fresh cell with
the same value and return its reference. -/
def jsonDeepClone (h : RulebookHeap) (r : Nat) : RulebookHeap × Nat :=
  match readRef h r with
  | some rb => (⟨h.cells ++ [rb]⟩, h.cells.length)
  | none => (h, h.cells.length)

/-- `this.applyModifier(doc, modifier)` seen as a heap operation: mutates the
document object behind reference `r` in place. -/
def applyModifierAt (h : RulebookHeap) (r : Nat) (m : RuleModifier) : RulebookHeap :=
  match readRef h r with
  | some rb => writeRef h r (applyModifier rb m)
  | none => h

/-- The clone-then-apply core of `buildCampaignRulebook` (lines 231-248) at the
heap level: deep-clone the base object, then apply every modifier in order to
the clone, in place. -/
def compileWithModifiers (h : RulebookHeap) (baseRef : Nat) (mods : List RuleModifier) :
    RulebookHeap × Nat :=
  let cloned := jsonDeepClone h baseRef
  (mods.foldl (fun hh m => applyModifierAt hh cloned.2 m) cloned.1, cloned.2)

/-- All rules of a rulebook in document traversal order, each tagged with the key
of its enclosing section and subsection. -/
def rulesWithPath (rb : Rulebook) : List (String × String × Rule) :=
  rb.sections.flatMap (fun p =>
    p.2.subsections.flatMap (fun q =>
      q.2.rules.map (fun r => (p.1, q.1, r))))

/-- Whether some rule anywhere in the document has the given id. -/
def hasRuleWithId (rb : Rulebook) (rid : String) : Bool :=
  (rulesWithPath rb).any (fun x => x.2.2.id = rid)

/-- Generic declarative combinator: replace the first element satisfying `p`
by its image under `f`, leaving every other element untouched. -/
def replaceFirstBy {α : Type} (p : α → Bool) (f : α → α) : List α → List α
  | [] => []
  | a :: as => if p a then f a :: as else a :: replaceFirstBy p f as

/-- The skeleton of a rulebook: the same document with every rule list emptied.
Two rulebooks with equal skeletons agree on everything except rule contents. -/
def eraseRules (rb : Rulebook) : Rulebook :=
  { rb with sections := rb.sections.map (fun p =>
      (p.1, { p.2 with subsections := p.2.subsections.map (fun q =>
        (q.1, { q.2 with rules := [] })) })) }

/-- The "target is missing" condition of the error-handling claim, per modifier
variant: `add_subsection` or `add_rule` naming a non-existent section or
subsection, `modify_rule` or `remove_rule` naming a rule id matching no rule. -/
def targetMissing (rb : Rulebook) : RuleModifier → Bool
  | .add_subsection section_id _ _ => (lookupKey rb.sections section_id).isNone
  | .add_rule section_id subsection_id _ =>
    match lookupKey rb.sections section_id with
    | none => true
    | some sec => (lookupKey sec.subsections subsection_id).isNone
  | .modify_rule rule_id _ => !hasRuleWithId rb rule_id
  | .remove_rule rule_id => !hasRuleWithId rb rule_id
  | .add_section _ _ => false
  | .replace_section _ _ => false

/-- C10: for every rulebook, section id and section data, the `add_section` and
`replace_section` branches of `applyModifier` are extensionally equal: both
unconditionally overwrite `sections[section_id]` with the supplied data, with no
existence check and no merge. -/
theorem add_section_eq_replace_section (rb : Rulebook) (sid : String) (data : Section) :
    applyModifier rb (RuleModifier.add_section sid data) =
        applyModifier rb (RuleModifier.replace_section sid data) ∧
      applyModifier rb (RuleModifier.add_section sid data) =
        { rb with sections := setKey rb.sections sid data } :=
  ⟨rfl, rfl⟩

/-- A territory id resolves to no territory of the document exactly when no
territory of the document carries that id. -/
theorem territoryById_eq_none_iff (b : Board) (a : String) :
    territoryById b a = none ↔ ∀ u ∈ b.territories, u.id ≠ a := by
  unfold territoryById
  rw [List.find?_eq_none]
  constructor
  · intro h u hu
    have := h u (List.mem_reverse.mpr hu)
    simpa using this
  · intro h u hu
    have := h u (List.mem_reverse.mp hu)
    simpa using this

/-- A territory id resolves exactly when some territory of the document carries
that id. -/
theorem territoryById_isSome_iff (b : Board) (a : String) :
    (territoryById b a).isSome = true ↔ ∃ u ∈ b.territories, u.id = a := by
  unfold territoryById
  rw [List.find?_isSome]
  constructor
  · rintro ⟨u, hu, hp⟩
    exact ⟨u, List.mem_reverse.mp hu, by simpa using hp⟩
  · rintro ⟨u, hu, hp⟩
    exact ⟨u, List.mem_reverse.mpr hu, by simpa using hp⟩

/-- The per-territory adjacency walk errors exactly when some entry of the list
resolves to no territory. -/
theorem validateAdjEntries_error_iff (b : Board) (tid : String) (l : List String) :
    (∃ e, validateAdjEntries b tid l = Except.error e) ↔
      ∃ a ∈ l, territoryById b a = none := by
  induction l with
  | nil => simp [validateAdjEntries]
  | cons a rest ih =>
    simp only [validateAdjEntries]
    cases ha : territoryById b a with
    | none => simp [ha]
    | some adj =>
      cases hr : validateAdjEntries b tid rest with
      | error e =>
        simp only [hr]
        constructor
        · intro _
          rcases ih.mp ⟨e, hr⟩ with ⟨x, hx, hnone⟩
          exact ⟨x, List.mem_cons_of_mem _ hx, hnone⟩
        · intro _
          exact ⟨e, rfl⟩
      | ok ws =>
        simp only [hr]
        constructor
        · rintro ⟨e, he⟩
          exact absurd he (by simp)
        · rintro ⟨x, hx, hnone⟩
          rcases List.mem_cons.mp hx with h1 | h1
          · rw [h1] at hnone
            rw [hnone] at ha
            exact absurd ha (by simp)
          · rcases ih.mpr ⟨x, h1, hnone⟩ with ⟨e, he⟩
            rw [he] at hr
            exact absurd hr (by simp)

/-- The outer validation loop errors exactly when some territory of the list has
an adjacency entry that resolves to no territory. -/
theorem validateBidirectionalAdjacencies_error_iff (b : Board) (ts : List Territory) :
    (∃ e, validateBidirectionalAdjacencies b ts = Except.error e) ↔
      ∃ t ∈ ts, ∃ a ∈ t.adjacentTo, territoryById b a = none := by
  induction ts with
  | nil => simp [validateBidirectionalAdjacencies]
  | cons t rest ih =>
    simp only [validateBidirectionalAdjacencies]
    cases h1 : validateAdjEntries b t.id t.adjacentTo with
    | error e =>
      simp only [h1]
      constructor
      · intro _
        rcases (validateAdjEntries_error_iff b t.id t.adjacentTo).mp ⟨e, h1⟩ with ⟨a, ha, hnone⟩
        exact ⟨t, List.mem_cons_self t rest, a, ha, hnone⟩
      · intro _
        exact ⟨e, rfl⟩
    | ok ws =>
      cases h2 : validateBidirectionalAdjacencies b rest with
      | error e =>
        simp only [h1, h2]
        constructor
        · intro _
          rcases ih.mp ⟨e, h2⟩ with ⟨u, hu, a, ha, hnone⟩
          exact ⟨u, List.mem_cons_of_mem _ hu, a, ha, hnone⟩
        · intro _
          exact ⟨e, rfl⟩
      | ok ws1 =>
        simp only [h1, h2]
        constructor
        · rintro ⟨e, he⟩
          exact absurd he (by simp)
        · rintro ⟨u, hu, a, ha, hnone⟩
          rcases List.mem_cons.mp hu with h3 | h3
          · subst h3
            rcases (validateAdjEntries_error_iff b u.id u.adjacentTo).mpr ⟨a, ha, hnone⟩ with ⟨e, he⟩
            rw [he] at h1
            exact absurd h1 (by simp)
          · rcases ih.mpr ⟨u, h3, a, ha, hnone⟩ with ⟨e, he⟩
            rw [he] at h2
            exact absurd h2 (by simp)

/-- C5: for every board document, `BoardTopology` construction throws if and only
if some territory's `adjacentTo` list contains an id matching no territory of the
document; in particular a merely non-reciprocated adjacency never makes
construction fail (it is only collected as a warning). -/
theorem initTopology_error_iff (b : Board) :
    (∃ e, initTopology b = Except.error e) ↔
      ∃ t ∈ b.territories, ∃ a ∈ t.adjacentTo, ∀ u ∈ b.territories, u.id ≠ a := by
  unfold initTopology
  rw [validateBidirectionalAdjacencies_error_iff]
  constructor
  · rintro ⟨t, ht, a, ha, hnone⟩
    exact ⟨t, ht, a, ha, (territoryById_eq_none_iff b a).mp hnone⟩
  · rintro ⟨t, ht, a, ha, hnone⟩
    exact ⟨t, ht, a, ha, (territoryById_eq_none_iff b a).mpr hnone⟩

/-- C6: for every board and pair of ids, `validateMovement from to` is `true`
exactly when both ids resolve to existing territories and `to` belongs to the
adjacency set of the territory `from` resolves to; with an unknown id it is
`false` (and, being a total function, it never throws). -/
theorem validateMovement_iff (b : Board) (fromId toId : String) :
    validateMovement b fromId toId = true ↔
      ∃ tf, territoryById b fromId = some tf ∧
        (∃ u ∈ b.territories, u.id = toId) ∧ toId ∈ tf.adjacentTo := by
  unfold validateMovement areTerritoriesAdjacent
  cases hf : territoryById b fromId with
  | none => simp
  | some tf =>
    cases ht : territoryById b toId with
    | none =>
      simp only [Option.some.injEq]
      constructor
      · intro h
        exact absurd h (by simp)
      · rintro ⟨tf1, _, ⟨u, hu, hid⟩, _⟩
        have : (territoryById b toId).isSome = true :=
          (territoryById_isSome_iff b toId).mpr ⟨u, hu, hid⟩
        rw [ht] at this
        exact absurd this (by simp)
    | some tt =>
      simp only [hf, Option.some.injEq]
      constructor
      · intro h
        refine ⟨tf, rfl, ?_, ?_⟩
        · exact (territoryById_isSome_iff b toId).mp (by rw [ht]; rfl)
        · simpa using h
      · rintro ⟨tf1, htf1, _, hmem⟩
        subst htf1
        simpa using hmem

theorem replaceFirstRule_eq_none (rid : String) (c : RuleChanges) (rules : List Rule)
    (h : ∀ r ∈ rules, r.id ≠ rid) : replaceFirstRule rid c rules = none := by
  induction rules with
  | nil => rfl
  | cons r rs ih =>
    have hr : r.id ≠ rid := h r (List.mem_cons_self r rs)
    simp only [replaceFirstRule, if_neg hr]
    rw [ih (fun x hx => h x (List.mem_cons_of_mem _ hx))]
    rfl

theorem removeFirstRule_eq_none (rid : String) (rules : List Rule)
    (h : ∀ r ∈ rules, r.id ≠ rid) : removeFirstRule rid rules = none := by
  induction rules with
  | nil => rfl
  | cons r rs ih =>
    have hr : r.id ≠ rid := h r (List.mem_cons_self r rs)
    simp only [removeFirstRule, if_neg hr]
    rw [ih (fun x hx => h x (List.mem_cons_of_mem _ hx))]
    rfl

theorem modifyRuleInSubsections_eq_none (rid : String) (c : RuleChanges)
    (subs : List (String × Subsection))
    (h : ∀ q ∈ subs, ∀ r ∈ q.2.rules, r.id ≠ rid) :
    modifyRuleInSubsections rid c subs = none := by
  induction subs with
  | nil => rfl
  | cons q qs ih =>
    simp only [modifyRuleInSubsections]
    rw [replaceFirstRule_eq_none rid c q.2.rules (h q (List.mem_cons_self q qs))]
    rw [ih (fun x hx => h x (List.mem_cons_of_mem _ hx))]
    rfl

theorem removeRuleInSubsections_eq_none (rid : String)
    (subs : List (String × Subsection))
    (h : ∀ q ∈ subs, ∀ r ∈ q.2.rules, r.id ≠ rid) :
    removeRuleInSubsections rid subs = none := by
  induction subs with
  | nil => rfl
  | cons q qs ih =>
    simp only [removeRuleInSubsections]
    rw [removeFirstRule_eq_none rid q.2.rules (h q (List.mem_cons_self q qs))]
    rw [ih (fun x hx => h x (List.mem_cons_of_mem _ hx))]
    rfl

theorem modifyRuleInSections_eq_none (rid : String) (c : RuleChanges)
    (secs : List (String × Section))
    (h : ∀ p ∈ secs, ∀ q ∈ p.2.subsections, ∀ r ∈ q.2.rules, r.id ≠ rid) :
    modifyRuleInSections rid c secs = none := by
  induction secs with
  | nil => rfl
  | cons p ps ih =>
    simp only [modifyRuleInSections]
    rw [modifyRuleInSubsections_eq_none rid c p.2.subsections (h p (List.mem_cons_self p ps))]
    rw [ih (fun x hx => h x (List.mem_cons_of_mem _ hx))]
    rfl

theorem removeRuleInSections_eq_none (rid : String)
    (secs : List (String × Section))
    (h : ∀ p ∈ secs, ∀ q ∈ p.2.subsections, ∀ r ∈ q.2.rules, r.id ≠ rid) :
    removeRuleInSections rid secs = none := by
  induction secs with
  | nil => rfl
  | cons p ps ih =>
    simp only [removeRuleInSections]
    rw [removeRuleInSubsections_eq_none rid p.2.subsections (h p (List.mem_cons_self p ps))]
    rw [ih (fun x hx => h x (List.mem_cons_of_mem _ hx))]
    rfl

/-- Unfolding of `hasRuleWithId rb rid = false` into a pointwise statement over
the document structure. -/
theorem hasRuleWithId_eq_false_iff (rb : Rulebook) (rid : String) :
    hasRuleWithId rb rid = false ↔
      ∀ p ∈ rb.sections, ∀ q ∈ p.2.subsections, ∀ r ∈ q.2.rules, r.id ≠ rid := by
  simp only [hasRuleWithId, rulesWithPath, List.any_eq_false, List.mem_flatMap, List.mem_map,
    decide_eq_true_eq, not_exists, not_and]
  constructor
  · intro h p hp q hq r hr hid
    exact h (p.1, q.1, r) ⟨p, hp, q, hq, r, hr, rfl⟩ hid
  · rintro h x ⟨p, hp, q, hq, r, hr, heq⟩
    cases heq
    exact h p hp q hq r hr

/-- C3: every `applyModifier` branch whose target is missing (a non-existent
section for `add_subsection`, a non-existent section or subsection for
`add_rule`, an unmatched rule id for `modify_rule` or `remove_rule`) returns the
rulebook completely unchanged.  `applyModifier` is a total function of the
schema-valid document and modifier, so no input makes it throw. -/
theorem applyModifier_missing_target_noop (rb : Rulebook) (m : RuleModifier)
    (h : targetMissing rb m = true) : applyModifier rb m = rb := by
  cases m with
  | add_section sid data => simp [targetMissing] at h
  | replace_section sid data => simp [targetMissing] at h
  | add_subsection sid ssid data =>
    have hl : lookupKey rb.sections sid = none := by
      simpa [targetMissing, Option.isNone_iff_eq_none] using h
    simp [applyModifier, hl]
  | add_rule sid ssid rule =>
    simp only [targetMissing] at h
    cases hl : lookupKey rb.sections sid with
    | none => simp [applyModifier, hl]
    | some sec =>
      rw [hl] at h
      have hl2 : lookupKey sec.subsections ssid = none := by
        simpa [Option.isNone_iff_eq_none] using h
      simp [applyModifier, hl, hl2]
  | modify_rule rid c =>
    have hfalse : hasRuleWithId rb rid = false := by
      simpa [targetMissing] using h
    have hnone := modifyRuleInSections_eq_none rid c rb.sections
      ((hasRuleWithId_eq_false_iff rb rid).mp hfalse)
    simp [applyModifier, hnone]
  | remove_rule rid =>
    have hfalse : hasRuleWithId rb rid = false := by
      simpa [targetMissing] using h
    have hnone := removeRuleInSections_eq_none rid rb.sections
      ((hasRuleWithId_eq_false_iff rb rid).mp hfalse)
    simp [applyModifier, hnone]

/-- A sample rule used by concrete witnesses. -/
def sampleRule : Rule :=
  { id := "combat.attacking.minimum_troops"
    text := "Attack with at least one troop"
    priority := 1
    modifiers := []
    tags := ["combat"]
    phase := none
    applies_to := "all" }

/-- A sample subsection used by concrete witnesses. -/
def sampleSubsection : Subsection :=
  { title := "Attacking", content := "How to attack", rules := [sampleRule],
    examples := [], related := [] }

/-- A sample section used by concrete witnesses. -/
def sampleSection : Section :=
  { id := "combat", title := "Combat", summary := "Combat rules",
    subsections := [("attacking", sampleSubsection)] }

/-- A sample rulebook used by concrete witnesses. -/
def sampleRulebook : Rulebook :=
  { version := "1.0.0"
    metadata := { title := "Risk Legacy", description := "Base rules", lastUpdated := "2025-01-01" }
    sections := [("combat", sampleSection)]
    factions := none
    glossary := [] }

/-- Witness for C3: an `add_subsection` modifier naming the non-existent section
`"missions"` of the sample rulebook has a missing target, and applying it leaves
the rulebook unchanged. -/
theorem applyModifier_missing_target_noop_witness :
    targetMissing sampleRulebook
        (RuleModifier.add_subsection "missions" "private" sampleSubsection) = true ∧
      applyModifier sampleRulebook
        (RuleModifier.add_subsection "missions" "private" sampleSubsection) = sampleRulebook :=
  ⟨by decide, applyModifier_missing_target_noop _ _ (by decide)⟩

theorem get?_set_self {α : Type} (l : List α) (i : Nat) (a : α) (h : i < l.length) :
    (l.set i a).get? i = some a := by
  induction l generalizing i with
  | nil => simp at h
  | cons x xs ih =>
    cases i with
    | zero => rfl
    | succ n => exact ih n (by simpa using h)

theorem get?_set_other {α : Type} (l : List α) (i j : Nat) (a : α) (h : i ≠ j) :
    (l.set i a).get? j = l.get? j := by
  induction l generalizing i j with
  | nil => rfl
  | cons x xs ih =>
    cases i with
    | zero =>
      cases j with
      | zero => exact absurd rfl h
      | succ m => rfl
    | succ n =>
      cases j with
      | zero => rfl
      | succ m => exact ih n m (fun he => h (by rw [he]))

/-- Applying a run of modifiers in place at reference `r` touches no other cell. -/
theorem foldl_applyModifierAt_other (mods : List RuleModifier) (h : RulebookHeap)
    (r s : Nat) (hne : s ≠ r) :
    readRef (mods.foldl (fun hh m => applyModifierAt hh r m) h) s = readRef h s := by
  induction mods generalizing h with
  | nil => rfl
  | cons m ms ih =>
    rw [List.foldl_cons, ih]
    unfold applyModifierAt
    cases hr : readRef h r with
    | none => rfl
    | some rb =>
      unfold readRef writeRef
      exact get?_set_other h.cells r s (applyModifier rb m) (fun he => hne he.symm)

/-- Applying a run of modifiers in place at reference `r` leaves that cell holding
the functional fold of `applyModifier` over its previous value. -/
theorem foldl_applyModifierAt_self (mods : List RuleModifier) (h : RulebookHeap)
    (r : Nat) (v : Rulebook) (hv : readRef h r = some v) :
    readRef (mods.foldl (fun hh m => applyModifierAt hh r m) h) r =
      some (mods.foldl applyModifier v) := by
  induction mods generalizing h v with
  | nil => simpa using hv
  | cons m ms ih =>
    rw [List.foldl_cons, List.foldl_cons]
    have hlt : r < h.cells.length := by
      rcases List.get?_eq_some.mp hv with ⟨hlt, _⟩
      exact hlt
    have hstep : readRef (applyModifierAt h r m) r = some (applyModifier v m) := by
      unfold applyModifierAt
      rw [hv]
      unfold readRef writeRef
      exact get?_set_self h.cells r (applyModifier v m) hlt
    exact ih _ _ hstep

theorem loadPackModifiers_preserves_baseRules (env : Env) (st : BuilderState) (p : String) :
    (loadPackModifiers env st p).2.1.baseRules = st.baseRules := by
  unfold loadPackModifiers
  cases lookupKey st.modifierCache p with
  | some pm => rfl
  | none =>
    cases env.packs p with
    | some pm => rfl
    | none => rfl

theorem applyPacksLoop_preserves_baseRules (env : Env) (ps : List String)
    (st : BuilderState) (acc : List RuleModifier) (rb : Rulebook) :
    (applyPacksLoop env ps st acc rb).2.2.1.baseRules = st.baseRules := by
  induction ps generalizing st acc rb with
  | nil => rfl
  | cons p rest ih =>
    unfold applyPacksLoop
    rw [ih]
    exact loadPackModifiers_preserves_baseRules env st p

theorem loadBaseRules_of_cached (env : Env) (st : BuilderState) (rb : Rulebook)
    (h : st.baseRules = some rb) :
    loadBaseRules env st = (Except.ok rb, st, []) := by
  unfold loadBaseRules
  rw [h]

/-- C2: no modifier application ever mutates the base document.  At the heap
level, the clone-then-apply core of `buildCampaignRulebook` deep-clones the base
object into a fresh cell and mutates only the clone: the base cell still holds
its original value afterwards, while the clone holds the modifiers folded over a
copy of that value.  At the builder level, a `buildCampaignRulebook` call leaves
the cached `baseRules` document exactly as it was. -/
theorem buildCampaignRulebook_preserves_base (hp : RulebookHeap) (baseRef : Nat)
    (rb : Rulebook) (mods : List RuleModifier) (env : Env) (st : BuilderState)
    (campaignId : String) (packs : List String)
    (hread : readRef hp baseRef = some rb) (hst : st.baseRules = some rb) :
    readRef (compileWithModifiers hp baseRef mods).1 baseRef = some rb ∧
      readRef (compileWithModifiers hp baseRef mods).1 (compileWithModifiers hp baseRef mods).2 =
        some (mods.foldl applyModifier rb) ∧
      (buildCampaignRulebook env st campaignId packs).state.baseRules = some rb := by
  have hlt : baseRef < hp.cells.length := by
    rcases List.get?_eq_some.mp hread with ⟨hlt, _⟩
    exact hlt
  have hclone : jsonDeepClone hp baseRef = (⟨hp.cells ++ [rb]⟩, hp.cells.length) := by
    unfold jsonDeepClone
    rw [hread]
  refine ⟨?_, ?_, ?_⟩
  · unfold compileWithModifiers
    rw [hclone]
    have hne : baseRef ≠ hp.cells.length := Nat.ne_of_lt hlt
    rw [foldl_applyModifierAt_other mods _ _ _ hne]
    have hread1 : hp.cells[baseRef]? = some rb := by
      rw [← List.get?_eq_getElem?]
      exact hread
    show (hp.cells ++ [rb]).get? baseRef = some rb
    rw [List.get?_eq_getElem?, List.getElem?_append_left hlt]
    exact hread1
  · unfold compileWithModifiers
    rw [hclone]
    have hv : readRef ⟨hp.cells ++ [rb]⟩ hp.cells.length = some rb := by
      show (hp.cells ++ [rb]).get? hp.cells.length = some rb
      rw [List.get?_eq_getElem?]
      exact List.getElem?_concat_length hp.cells rb
    exact foldl_applyModifierAt_self mods _ _ _ hv
  · simp only [buildCampaignRulebook]
    split
    · exact hst
    · rw [loadBaseRules_of_cached env st rb hst]
      simpa [applyPacksLoop_preserves_baseRules] using hst

/-- A sample builder environment used by concrete witnesses: the base file parses
to the sample rulebook and every pack file is missing. -/
def sampleEnv : Env :=
  { base := some sampleRulebook, packs := fun _ => none, now := "2025-06-01T00:00:00.000Z" }

/-- A sample builder state holding the sample rulebook as cached base. -/
def sampleState : BuilderState :=
  { baseRules := some sampleRulebook, modifierCache := [], compiledCache := [] }

/-- A sample `modify_rule` change set. -/
def sampleChanges : RuleChanges :=
  { text := some "Attack with at least two troops", priority := none, tags := none,
    phase := none, applies_to := none }

/-- A sample modifier list containing a rule modification. -/
def sampleMods : List RuleModifier :=
  [RuleModifier.modify_rule "combat.attacking.minimum_troops" sampleChanges]

/-- A sample heap with the sample rulebook as the single (base) object. -/
def sampleHeap : RulebookHeap := ⟨[sampleRulebook]⟩

/-- Witness for C2 at a concrete heap, base object and modifier list. -/
theorem buildCampaignRulebook_preserves_base_witness :
    readRef sampleHeap 0 = some sampleRulebook ∧
      sampleState.baseRules = some sampleRulebook ∧
      (readRef (compileWithModifiers sampleHeap 0 sampleMods).1 0 = some sampleRulebook ∧
        readRef (compileWithModifiers sampleHeap 0 sampleMods).1
            (compileWithModifiers sampleHeap 0 sampleMods).2 =
          some (sampleMods.foldl applyModifier sampleRulebook) ∧
        (buildCampaignRulebook sampleEnv sampleState "camp1" []).state.baseRules =
          some sampleRulebook) :=
  ⟨rfl, rfl,
    buildCampaignRulebook_preserves_base sampleHeap 0 sampleRulebook sampleMods
      sampleEnv sampleState "camp1" [] rfl rfl⟩

theorem lookupKey_setKey_self {α : Type} (l : List (String × α)) (k : String) (v : α) :
    lookupKey (setKey l k v) k = some v := by
  induction l with
  | nil => simp [setKey, lookupKey]
  | cons p rest ih =>
    rcases p with ⟨k0, v0⟩
    by_cases hk : k0 = k
    · simp [setKey, hk, lookupKey]
    · simpa [setKey, hk, lookupKey] using ih

/-- C9: once a `buildCampaignRulebook` call has succeeded, calling it again with
the same arguments (and no intervening cache clear) returns the identical cached
`CampaignRulebook`, leaves the builder state untouched, and performs zero
repository accesses (no base-rulebook and no pack-modifier load, hence no
recompilation). -/
theorem buildCampaignRulebook_idempotent (env : Env) (st : BuilderState)
    (campaignId : String) (packs : List String) (cr : CampaignRulebook)
    (h : (buildCampaignRulebook env st campaignId packs).result = Except.ok cr) :
    buildCampaignRulebook env (buildCampaignRulebook env st campaignId packs).state
        campaignId packs =
      ⟨Except.ok cr, sortJS packs,
       (buildCampaignRulebook env st campaignId packs).state, []⟩ := by
  have hkey : lookupKey (buildCampaignRulebook env st campaignId packs).state.compiledCache
      (cacheKeyOf campaignId (sortJS packs)) = some cr := by
    simp only [buildCampaignRulebook] at h ⊢
    split at h
    · next cached heq =>
      injection h with hc
      simp only [heq]
      simp [hc]
    · next heq =>
      split at h
      · next e st1 c1 hload =>
        exact absurd h (by simp)
      · next baseRules st1 c1 hload =>
        injection h with hc
        simp only [heq, hload]
        rw [hc]
        exact lookupKey_setKey_self _ _ _
  revert hkey
  generalize (buildCampaignRulebook env st campaignId packs).state = st1
  intro hkey
  simp only [buildCampaignRulebook]
  rw [hkey]

/-- The campaign rulebook produced by compiling the sample state with no packs. -/
def sampleBuiltCR : CampaignRulebook :=
  { campaignId := "camp1"
    baseRules := sampleRulebook
    unlockedPacks := []
    modifiers := []
    compiledRulebook :=
      { sampleRulebook with metadata :=
          { sampleRulebook.metadata with lastUpdated := sampleEnv.now } }
    version := "1.0.0" }

/-- Witness for C9: a concrete first call succeeds, and the second call with the
same arguments returns the identical cached object with no repository access. -/
theorem buildCampaignRulebook_idempotent_witness :
    (buildCampaignRulebook sampleEnv sampleState "camp1" []).result = Except.ok sampleBuiltCR ∧
      buildCampaignRulebook sampleEnv
          (buildCampaignRulebook sampleEnv sampleState "camp1" []).state "camp1" [] =
        ⟨Except.ok sampleBuiltCR, sortJS [],
         (buildCampaignRulebook sampleEnv sampleState "camp1" []).state, []⟩ :=
  ⟨rfl, buildCampaignRulebook_idempotent sampleEnv sampleState "camp1" [] sampleBuiltCR rfl⟩

theorem insertSorted_length (s : String) (l : List String) :
    (insertSorted s l).length = l.length + 1 := by
  induction l with
  | nil => rfl
  | cons t ts ih =>
    by_cases hlt : jsStringLt t s = true
    · simp [insertSorted, hlt, ih]
    · simp [insertSorted, hlt]

theorem sortJS_length (l : List String) : (sortJS l).length = l.length := by
  induction l with
  | nil => rfl
  | cons x t ih =>
    show (insertSorted x (sortJS t)).length = t.length + 1
    rw [insertSorted_length, ih]

/-- C1 as amended: `buildCampaignRulebook` sorts the caller-supplied
`unlockedPacks` array in place before using it, so the cache key is computed
from the sorted list, the caller's array is left in sorted order, and on a
cache miss the produced version string and `unlockedPacks` field both use the
sorted order (base version alone when the list is empty). -/
theorem buildCampaignRulebook_sorts_in_place (env : Env) (st : BuilderState)
    (campaignId : String) (packs : List String) (base : Rulebook)
    (hmiss : lookupKey st.compiledCache (cacheKeyOf campaignId (sortJS packs)) = none)
    (hbase : (loadBaseRules env st).1 = Except.ok base) :
    (buildCampaignRulebook env st campaignId packs).packsArr = sortJS packs ∧
      ∃ cr, (buildCampaignRulebook env st campaignId packs).result = Except.ok cr ∧
        cr.unlockedPacks = sortJS packs ∧
        cr.version = (if packs = [] then base.version
          else base.version ++ "+" ++ String.intercalate "+" (sortJS packs)) := by
  rcases hload : loadBaseRules env st with ⟨res, st1, c1⟩
  rw [hload] at hbase
  have hres : res = Except.ok base := hbase
  subst hres
  simp only [buildCampaignRulebook, hmiss, hload]
  constructor
  · trivial
  · refine ⟨_, rfl, rfl, ?_⟩
    by_cases hp : packs = []
    · subst hp
      rfl
    · have hlen : 0 < (sortJS packs).length := by
        rw [sortJS_length]
        exact List.length_pos.mpr hp
      simp [hp, hlen]

/-- Witness for the amended C1 at a concrete unsorted pack list. -/
theorem buildCampaignRulebook_sorts_in_place_witness :
    lookupKey sampleState.compiledCache (cacheKeyOf "camp1" (sortJS ["b", "a"])) = none ∧
      (loadBaseRules sampleEnv sampleState).1 = Except.ok sampleRulebook ∧
      ((buildCampaignRulebook sampleEnv sampleState "camp1" ["b", "a"]).packsArr =
          sortJS ["b", "a"] ∧
        ∃ cr, (buildCampaignRulebook sampleEnv sampleState "camp1" ["b", "a"]).result =
            Except.ok cr ∧
          cr.unlockedPacks = sortJS ["b", "a"] ∧
          cr.version = (if (["b", "a"] : List String) = [] then sampleRulebook.version
            else sampleRulebook.version ++ "+" ++ String.intercalate "+" (sortJS ["b", "a"]))) :=
  ⟨rfl, rfl,
    buildCampaignRulebook_sorts_in_place sampleEnv sampleState "camp1" ["b", "a"]
      sampleRulebook rfl rfl⟩

/-- The version string of the campaign rulebook a build call returned, when it
succeeded. -/
def resultVersion (o : BuildOutcome) : Option String :=
  match o.result with
  | Except.ok cr => some cr.version
  | Except.error _ => none

/-- The `unlockedPacks` field of the campaign rulebook a build call returned,
when it succeeded. -/
def resultPacksField (o : BuildOutcome) : Option (List String) :=
  match o.result with
  | Except.ok cr => some cr.unlockedPacks
  | Except.error _ => none

/-- Counterexample to C1 as stated: building with caller order `["b", "a"]`
yields version `"1.0.0+a+b"` (sorted order), not `"1.0.0+b+a"` (the original
order the claim requires); the caller's array ends up reordered to
`["a", "b"]`, and the returned `unlockedPacks` field is the sorted list, not
the caller-supplied order. -/
theorem buildCampaignRulebook_original_order_counterexample :
    resultVersion (buildCampaignRulebook sampleEnv sampleState "camp1" ["b", "a"]) =
        some "1.0.0+a+b" ∧
      ("1.0.0+a+b" : String) ≠ "1.0.0+b+a" ∧
      (buildCampaignRulebook sampleEnv sampleState "camp1" ["b", "a"]).packsArr = ["a", "b"] ∧
      (["a", "b"] : List String) ≠ ["b", "a"] ∧
      resultPacksField (buildCampaignRulebook sampleEnv sampleState "camp1" ["b", "a"]) =
        some ["a", "b"] :=
  ⟨by decide, by decide, by decide, by decide, by decide⟩

/-- The section filter of the search claim: absent or empty, or the enclosing
section's key is listed. -/
def sectionFilterOk (sections : Option (List String)) (sectionId : String) : Bool :=
  match sections with
  | none => true
  | some ss => ss.isEmpty || ss.contains sectionId

/-- The text filter of the search claim: the rule's text, lower-cased, contains
the query lower-cased as a substring. -/
def textFilterOk (query : String) (r : Rule) : Bool :=
  strIncludes r.text.toLower query.toLower

/-- The tag filter of the search claim: absent or empty, or at least one
requested tag appears in the rule's tag list. -/
def tagFilterOk (tags : Option (List String)) (r : Rule) : Bool :=
  match tags with
  | none => true
  | some ts => ts.isEmpty || ts.any (fun t => r.tags.contains t)

/-- The full match predicate of the search claim on a path-tagged rule. -/
def searchPred (query : String) (sections tags : Option (List String))
    (x : String × String × Rule) : Bool :=
  sectionFilterOk sections x.1 && textFilterOk query x.2.2 && tagFilterOk tags x.2.2

theorem sectionSkipOf_eq_not_filterOk (sections : Option (List String)) (sid : String) :
    sectionSkipOf sections sid = !sectionFilterOk sections sid := by
  cases sections with
  | none => rfl
  | some ss =>
    cases ss with
    | nil => rfl
    | cons a l => simp [sectionSkipOf, sectionFilterOk]

theorem tagMatchOf_eq_filterOk (tags : Option (List String)) (r : Rule) :
    tagMatchOf tags r = tagFilterOk tags r := by
  cases tags with
  | none => rfl
  | some ts =>
    cases ts with
    | nil => rfl
    | cons a l => simp [tagMatchOf, tagFilterOk]

theorem filter_flatMapList {α β : Type} (l : List α) (f : α → List β) (p : β → Bool) :
    (l.flatMap f).filter p = l.flatMap (fun a => (f a).filter p) := by
  induction l with
  | nil => rfl
  | cons a t ih => simp [List.flatMap_cons, List.filter_append, ih]

theorem map_flatMapList {α β γ : Type} (l : List α) (f : α → List β) (g : β → γ) :
    (l.flatMap f).map g = l.flatMap (fun a => (f a).map g) := by
  induction l with
  | nil => rfl
  | cons a t ih => simp [List.flatMap_cons, ih]

theorem filter_mapList {α β : Type} (l : List α) (g : α → β) (p : β → Bool) :
    (l.map g).filter p = (l.filter (fun a => p (g a))).map g := by
  induction l with
  | nil => rfl
  | cons a t ih =>
    by_cases h : p (g a) = true
    · simp [List.filter_cons, h, ih]
    · simp [List.filter_cons, h, ih]

theorem textMatchOf_eq_filterOk (query : String) (r : Rule) :
    textMatchOf query.toLower r = textFilterOk query r := rfl

theorem flatMap_nilFun {α β : Type} (l : List α) :
    l.flatMap (fun _ => ([] : List β)) = [] := by
  induction l with
  | nil => rfl
  | cons a t ih => simp [List.flatMap_cons, ih]

/-- The rule loop of `searchRules`: appends exactly the rules passing the text
and tag conditions, in array order. -/
theorem searchRules_ruleLoop (queryLower : String) (tags : Option (List String))
    (rules : List Rule) (acc : List Rule) :
    rules.foldl (fun results rule =>
        if textMatchOf queryLower rule && tagMatchOf tags rule then results ++ [rule]
        else results) acc =
      acc ++ rules.filter (fun r => textMatchOf queryLower r && tagMatchOf tags r) := by
  induction rules generalizing acc with
  | nil => simp
  | cons r rs ih =>
    rw [List.foldl_cons, ih]
    by_cases h : (textMatchOf queryLower r && tagMatchOf tags r) = true
    · simp [List.filter_cons, h]
    · simp [List.filter_cons, h]

/-- The subsection loop of `searchRules`: concatenates, in record order, the
passing rules of every subsection. -/
theorem searchRules_subLoop (queryLower : String) (tags : Option (List String))
    (subs : List (String × Subsection)) (acc : List Rule) :
    subs.foldl (fun results q =>
        q.2.rules.foldl (fun results rule =>
          if textMatchOf queryLower rule && tagMatchOf tags rule then results ++ [rule]
          else results) results) acc =
      acc ++ subs.flatMap (fun q =>
        q.2.rules.filter (fun r => textMatchOf queryLower r && tagMatchOf tags r)) := by
  induction subs generalizing acc with
  | nil => simp
  | cons q qs ih =>
    rw [List.foldl_cons, searchRules_ruleLoop, ih, List.flatMap_cons, List.append_assoc]

/-- The section loop of `searchRules`. -/
theorem searchRules_secLoop (query : String) (sections tags : Option (List String))
    (secs : List (String × Section)) (acc : List Rule) :
    secs.foldl (fun results p =>
        if sectionSkipOf sections p.1 then results
        else
          p.2.subsections.foldl (fun results q =>
            q.2.rules.foldl (fun results rule =>
              if textMatchOf query.toLower rule && tagMatchOf tags rule then results ++ [rule]
              else results) results) results) acc =
      acc ++ secs.flatMap (fun p =>
        if sectionSkipOf sections p.1 then []
        else p.2.subsections.flatMap (fun q =>
          q.2.rules.filter (fun r => textMatchOf query.toLower r && tagMatchOf tags r))) := by
  induction secs generalizing acc with
  | nil => simp
  | cons p ps ih =>
    rw [List.foldl_cons]
    by_cases h : sectionSkipOf sections p.1 = true
    · rw [if_pos h, ih, List.flatMap_cons, if_pos h, List.nil_append]
    · rw [if_neg h, searchRules_subLoop, ih, List.flatMap_cons, if_neg h, List.append_assoc]

/-- C7: a rule appears in `searchRules rb query sections tags` exactly when it
sits in some subsection of a section passing the section filter (absent/empty or
listing the section key), its lower-cased text contains the lower-cased query,
and it passes the tag filter (absent/empty or sharing a tag); moreover the result
is precisely the document-traversal-order flattening of the rulebook filtered by
that predicate, so matches are returned in document traversal order. -/
theorem searchRules_spec (rb : Rulebook) (query : String)
    (sections tags : Option (List String)) :
    searchRules rb query sections tags =
        ((rulesWithPath rb).filter (searchPred query sections tags)).map (fun x => x.2.2) ∧
      ∀ r : Rule, r ∈ searchRules rb query sections tags ↔
        ∃ sid ssid, (sid, ssid, r) ∈ rulesWithPath rb ∧
          sectionFilterOk sections sid = true ∧ textFilterOk query r = true ∧
          tagFilterOk tags r = true := by
  have hmain : searchRules rb query sections tags =
      ((rulesWithPath rb).filter (searchPred query sections tags)).map (fun x => x.2.2) := by
    have hstart : searchRules rb query sections tags =
        rb.sections.foldl (fun results p =>
          if sectionSkipOf sections p.1 then results
          else
            p.2.subsections.foldl (fun results q =>
              q.2.rules.foldl (fun results rule =>
                if textMatchOf query.toLower rule && tagMatchOf tags rule then results ++ [rule]
                else results) results) results) [] := rfl
    rw [hstart, searchRules_secLoop, List.nil_append]
    simp only [rulesWithPath, filter_flatMapList, map_flatMapList, filter_mapList,
      List.map_map]
    refine congrArg rb.sections.flatMap (funext fun p => ?_)
    cases hs : sectionFilterOk sections p.1 with
    | false =>
      rw [sectionSkipOf_eq_not_filterOk, hs]
      simp [searchPred, hs, flatMap_nilFun]
    | true =>
      rw [sectionSkipOf_eq_not_filterOk, hs]
      simp only [Bool.not_true, Bool.false_eq_true, if_false, searchPred, hs,
        textMatchOf_eq_filterOk, tagMatchOf_eq_filterOk, Bool.true_and]
      refine congrArg p.2.subsections.flatMap (funext fun q => ?_)
      rw [show ((fun x : String × String × Rule => x.2.2) ∘ fun r : Rule => (p.1, q.1, r)) =
        id from rfl, List.map_id]
  refine ⟨hmain, fun r => ?_⟩
  rw [hmain, List.mem_map]
  constructor
  · rintro ⟨⟨sid, ssid, r1⟩, hmem, hx⟩
    rcases List.mem_filter.mp hmem with ⟨hmem1, hpred⟩
    cases hx
    simp only [searchPred, Bool.and_eq_true] at hpred
    exact ⟨sid, ssid, hmem1, hpred.1.1, hpred.1.2, hpred.2⟩
  · rintro ⟨sid, ssid, hmem, hs, ht, hg⟩
    exact ⟨(sid, ssid, r),
      List.mem_filter.mpr ⟨hmem, by simp [searchPred, hs, ht, hg]⟩, rfl⟩
/-- The candidate section paths for a rule id, in section scan order: one entry
per section some subsection of which contains a rule with that id, formed from
the first such subsection of that section. -/
def pathCandAux (rid : String) : List (String × Section) → List String
  | [] => []
  | p :: ps =>
    match p.2.subsections.find? (fun q => q.2.rules.any (fun r => r.id = rid)) with
    | some q => (p.1 ++ "." ++ q.1) :: pathCandAux rid ps
    | none => pathCandAux rid ps

/-- All candidate section paths of a rulebook for a rule id, in scan order. -/
def pathCandidates (rb : Rulebook) (ruleId : String) : List String :=
  pathCandAux ruleId rb.sections

/-- The section path the claim describes: the first section/subsection in scan
order containing a rule with the matched id, `"unknown"` when none exists. -/
def firstPathSpec (rb : Rulebook) (ruleId : String) : String :=
  (pathCandidates rb ruleId).headD "unknown"

/-- The section path the code actually computes, stated declaratively: the last
section in scan order containing a rule with the matched id (paired with the
first matching subsection inside it), `"unknown"` when none exists. -/
def lastPathSpec (rb : Rulebook) (ruleId : String) : String :=
  (pathCandidates rb ruleId).getLastD "unknown"

theorem foldl_pathUpdate (rid : String) (secs : List (String × Section)) (acc : String) :
    secs.foldl (fun acc p =>
        match p.2.subsections.find? (fun q => q.2.rules.any (fun r => r.id = rid)) with
        | some q => p.1 ++ "." ++ q.1
        | none => acc) acc =
      (pathCandAux rid secs).getLastD acc := by
  induction secs generalizing acc with
  | nil => rfl
  | cons p ps ih =>
    simp only [List.foldl_cons, pathCandAux]
    cases hf : p.2.subsections.find? (fun q => q.2.rules.any (fun r => r.id = rid)) with
    | some q => simp only [hf, List.getLastD_cons, ih]
    | none => simp only [hf, ih]

/-- C8 as amended: the section path computed by the search handler equals the
path of the last section (in scan order) containing a rule with the matched id,
paired with the first matching subsection within that section, and `"unknown"`
when no section contains such a rule — the inner subsection loop breaks on a
match but the outer section loop keeps scanning, so a later section overwrites
the path. -/
theorem sectionPath_eq_lastPathSpec (rb : Rulebook) (ruleId : String) :
    sectionPath rb ruleId = lastPathSpec rb ruleId := by
  unfold sectionPath lastPathSpec pathCandidates
  exact foldl_pathUpdate ruleId rb.sections "unknown"

/-- A rule whose id occurs in two different sections of the counterexample
rulebook. -/
def dupRule : Rule :=
  { id := "r", text := "duplicated rule", priority := 1, modifiers := [],
    tags := [], phase := none, applies_to := "all" }

/-- A rulebook in which rule id `"r"` occurs in subsection `"a"` of section
`"s1"` and in subsection `"b"` of section `"s2"`. -/
def rbTwoHomes : Rulebook :=
  { version := "1.0.0"
    metadata := { title := "t", description := "d", lastUpdated := "2025-01-01" }
    sections :=
      [("s1", { id := "s1", title := "S1", summary := "",
                subsections := [("a", { title := "A", content := "", rules := [dupRule],
                                        examples := [], related := [] })] }),
       ("s2", { id := "s2", title := "S2", summary := "",
                subsections := [("b", { title := "B", content := "", rules := [dupRule],
                                        examples := [], related := [] })] })]
    factions := none
    glossary := [] }

/-- Counterexample to C8 as stated: with the rule id present in two sections the
code computes the path of the last containing section (`"s2.b"`), not of the
first one (`"s1.a"`) as the claim requires. -/
theorem sectionPath_first_counterexample :
    sectionPath rbTwoHomes "r" = "s2.b" ∧ firstPathSpec rbTwoHomes "r" = "s1.a" ∧
      ("s2.b" : String) ≠ "s1.a" :=
  ⟨by decide, by decide, by decide⟩

/-- Path-tagged rules of a subsection list, in record then array order. -/
def subsRules (subs : List (String × Subsection)) : List (String × Rule) :=
  subs.flatMap (fun q => q.2.rules.map (fun r => (q.1, r)))

/-- Path-tagged rules of a section list, in record then record then array order. -/
def secsRules (secs : List (String × Section)) : List (String × String × Rule) :=
  secs.flatMap (fun p => (subsRules p.2.subsections).map (fun y => (p.1, y.1, y.2)))

theorem rulesWithPath_eq_secsRules (rb : Rulebook) :
    rulesWithPath rb = secsRules rb.sections := by
  unfold rulesWithPath secsRules subsRules
  refine congrArg rb.sections.flatMap (funext fun p => ?_)
  rw [map_flatMapList]
  refine congrArg p.2.subsections.flatMap (funext fun q => ?_)
  rw [List.map_map]
  rfl

theorem anyMapList {α β : Type} (l : List α) (g : α → β) (p : β → Bool) :
    (l.map g).any p = l.any (fun a => p (g a)) := by
  induction l with
  | nil => rfl
  | cons a t ih => simp [ih]

theorem replaceFirstBy_append {α : Type} (p : α → Bool) (f : α → α) (xs ys : List α) :
    replaceFirstBy p f (xs ++ ys) =
      if xs.any p then replaceFirstBy p f xs ++ ys else xs ++ replaceFirstBy p f ys := by
  induction xs with
  | nil => simp [replaceFirstBy]
  | cons a t ih =>
    cases h : p a with
    | true => simp [replaceFirstBy, h]
    | false =>
      cases hany : t.any p with
      | true => simp [replaceFirstBy, h, hany, ih]
      | false => simp [replaceFirstBy, h, hany, ih]

theorem replaceFirstBy_map {α β : Type} (p1 : α → Bool) (f1 : α → α)
    (p : β → Bool) (f : β → β) (g : α → β)
    (hp : ∀ a, p (g a) = p1 a) (hf : ∀ a, f (g a) = g (f1 a)) (l : List α) :
    replaceFirstBy p f (l.map g) = (replaceFirstBy p1 f1 l).map g := by
  induction l with
  | nil => rfl
  | cons a t ih =>
    cases h : p1 a with
    | true => simp [replaceFirstBy, hp, h, hf]
    | false => simp [replaceFirstBy, hp, h, ih]

theorem replaceFirstBy_of_none {α : Type} (p : α → Bool) (f : α → α) (l : List α)
    (h : l.any p = false) : replaceFirstBy p f l = l := by
  induction l with
  | nil => rfl
  | cons a t ih =>
    simp only [List.any_cons, Bool.or_eq_false_iff] at h
    simp [replaceFirstBy, h.1, ih h.2]

theorem replaceFirstRule_getD (rid : String) (c : RuleChanges) (rules : List Rule) :
    (match replaceFirstRule rid c rules with
      | some rs => rs
      | none => rules) =
      replaceFirstBy (fun r => r.id = rid) (fun r => applyChanges r c) rules := by
  induction rules with
  | nil => rfl
  | cons r rs ih =>
    by_cases h : r.id = rid
    · simp [replaceFirstRule, h, replaceFirstBy]
    · cases hrec : replaceFirstRule rid c rs with
      | some rs1 =>
        have ih1 : rs1 = replaceFirstBy (fun r => r.id = rid)
            (fun r => applyChanges r c) rs := by
          rw [hrec] at ih
          exact ih
        simp [replaceFirstRule, h, hrec, replaceFirstBy, ih1]
      | none =>
        have ih1 : rs = replaceFirstBy (fun r => r.id = rid)
            (fun r => applyChanges r c) rs := by
          rw [hrec] at ih
          exact ih
        simp [replaceFirstRule, h, hrec, replaceFirstBy, ← ih1]

theorem replaceFirstRule_isSome (rid : String) (c : RuleChanges) (rules : List Rule) :
    (replaceFirstRule rid c rules).isSome = rules.any (fun r => r.id = rid) := by
  induction rules with
  | nil => rfl
  | cons r rs ih =>
    by_cases h : r.id = rid
    · simp [replaceFirstRule, h]
    · simp [replaceFirstRule, h, ih]

theorem modifyRuleInSubsections_isSome (rid : String) (c : RuleChanges)
    (subs : List (String × Subsection)) :
    (modifyRuleInSubsections rid c subs).isSome =
      (subsRules subs).any (fun y => y.2.id = rid) := by
  induction subs with
  | nil => rfl
  | cons q qs ih =>
    rw [show subsRules (q :: qs) =
      q.2.rules.map (fun r => (q.1, r)) ++ subsRules qs from rfl]
    rw [List.any_append, anyMapList]
    cases hr : replaceFirstRule rid c q.2.rules with
    | some rs1 =>
      have hsome : q.2.rules.any (fun r => r.id = rid) = true := by
        rw [← replaceFirstRule_isSome rid c, hr]
        rfl
      rw [show modifyRuleInSubsections rid c (q :: qs) =
        some ((q.1, { q.2 with rules := rs1 }) :: qs) from by
          simp [modifyRuleInSubsections, hr]]
      simp [hsome]
    | none =>
      have hnone : q.2.rules.any (fun r => r.id = rid) = false := by
        rw [← replaceFirstRule_isSome rid c, hr]
        rfl
      rw [show modifyRuleInSubsections rid c (q :: qs) =
        (modifyRuleInSubsections rid c qs).map (fun l => (q.1, q.2) :: l) from by
          simp [modifyRuleInSubsections, hr]]
      rw [hnone]
      cases hqs : modifyRuleInSubsections rid c qs with
      | some s =>
        rw [hqs] at ih
        simp [← ih]
      | none =>
        rw [hqs] at ih
        simp [← ih]

theorem modifyRuleInSubsections_getD (rid : String) (c : RuleChanges)
    (subs : List (String × Subsection)) :
    subsRules (match modifyRuleInSubsections rid c subs with
      | some s => s
      | none => subs) =
      replaceFirstBy (fun y => y.2.id = rid) (fun y => (y.1, applyChanges y.2 c))
        (subsRules subs) := by
  induction subs with
  | nil => rfl
  | cons q qs ih =>
    cases hr : replaceFirstRule rid c q.2.rules with
    | some rs1 =>
      have hsome : q.2.rules.any (fun r => r.id = rid) = true := by
        rw [← replaceFirstRule_isSome rid c, hr]
        rfl
      have hmapany : (q.2.rules.map (fun r => (q.1, r))).any
          (fun y : String × Rule => y.2.id = rid) = true := by
        rw [anyMapList]
        exact hsome
      have hrs1 : rs1 = replaceFirstBy (fun r => r.id = rid) (fun r => applyChanges r c)
          q.2.rules := by
        have h2 := replaceFirstRule_getD rid c q.2.rules
        rw [hr] at h2
        exact h2
      rw [show modifyRuleInSubsections rid c (q :: qs) =
        some ((q.1, { q.2 with rules := rs1 }) :: qs) from by
          simp [modifyRuleInSubsections, hr]]
      rw [show subsRules ((q.1, { q.2 with rules := rs1 }) :: qs) =
        rs1.map (fun r => (q.1, r)) ++ subsRules qs from rfl]
      rw [show subsRules (q :: qs) =
        q.2.rules.map (fun r => (q.1, r)) ++ subsRules qs from rfl]
      rw [replaceFirstBy_append, if_pos hmapany, hrs1]
      rw [replaceFirstBy_map (fun r => r.id = rid) (fun r => applyChanges r c) _ _
        (fun r => (q.1, r)) (fun a => rfl) (fun a => rfl) q.2.rules]
    | none =>
      have hnone : q.2.rules.any (fun r => r.id = rid) = false := by
        rw [← replaceFirstRule_isSome rid c, hr]
        rfl
      have hmapany : (q.2.rules.map (fun r => (q.1, r))).any
          (fun y : String × Rule => y.2.id = rid) = false := by
        rw [anyMapList]
        exact hnone
      rw [show modifyRuleInSubsections rid c (q :: qs) =
        (modifyRuleInSubsections rid c qs).map (fun l => (q.1, q.2) :: l) from by
          simp [modifyRuleInSubsections, hr]]
      have hcons : (match (modifyRuleInSubsections rid c qs).map
            (fun l => (q.1, q.2) :: l) with
          | some s => s
          | none => q :: qs) =
          (q.1, q.2) :: (match modifyRuleInSubsections rid c qs with
            | some s => s
            | none => qs) := by
        cases modifyRuleInSubsections rid c qs with
        | some s => rfl
        | none => rfl
      rw [hcons]
      rw [show subsRules ((q.1, q.2) :: (match modifyRuleInSubsections rid c qs with
          | some s => s
          | none => qs)) =
        q.2.rules.map (fun r => (q.1, r)) ++ subsRules
          (match modifyRuleInSubsections rid c qs with
            | some s => s
            | none => qs) from rfl]
      rw [show subsRules (q :: qs) =
        q.2.rules.map (fun r => (q.1, r)) ++ subsRules qs from rfl]
      rw [replaceFirstBy_append, if_neg (by rw [hmapany]; exact Bool.false_ne_true), ih]


theorem modifyRuleInSections_getD (rid : String) (c : RuleChanges)
    (secs : List (String × Section)) :
    secsRules (match modifyRuleInSections rid c secs with
      | some s => s
      | none => secs) =
      replaceFirstBy (fun x => x.2.2.id = rid)
        (fun x => (x.1, x.2.1, applyChanges x.2.2 c)) (secsRules secs) := by
  induction secs with
  | nil => rfl
  | cons p ps ih =>
    cases hm : modifyRuleInSubsections rid c p.2.subsections with
    | some subs1 =>
      have hsome : (subsRules p.2.subsections).any (fun y => y.2.id = rid) = true := by
        rw [← modifyRuleInSubsections_isSome rid c, hm]
        rfl
      have hmapany : ((subsRules p.2.subsections).map (fun y => (p.1, y.1, y.2))).any
          (fun x : String × String × Rule => x.2.2.id = rid) = true := by
        rw [anyMapList]
        exact hsome
      have hsubs1 : subsRules subs1 =
          replaceFirstBy (fun y => y.2.id = rid) (fun y => (y.1, applyChanges y.2 c))
            (subsRules p.2.subsections) := by
        have h2 := modifyRuleInSubsections_getD rid c p.2.subsections
        rw [hm] at h2
        exact h2
      rw [show modifyRuleInSections rid c (p :: ps) =
        some ((p.1, { p.2 with subsections := subs1 }) :: ps) from by
          simp [modifyRuleInSections, hm]]
      rw [show secsRules ((p.1, { p.2 with subsections := subs1 }) :: ps) =
        (subsRules subs1).map (fun y => (p.1, y.1, y.2)) ++ secsRules ps from rfl]
      rw [show secsRules (p :: ps) =
        (subsRules p.2.subsections).map (fun y => (p.1, y.1, y.2)) ++ secsRules ps from rfl]
      rw [replaceFirstBy_append, if_pos hmapany, hsubs1]
      rw [replaceFirstBy_map (fun y => y.2.id = rid) (fun y => (y.1, applyChanges y.2 c))
        _ _ (fun y => (p.1, y.1, y.2)) (fun a => rfl) (fun a => rfl)
        (subsRules p.2.subsections)]
    | none =>
      have hnone : (subsRules p.2.subsections).any (fun y => y.2.id = rid) = false := by
        rw [← modifyRuleInSubsections_isSome rid c, hm]
        rfl
      have hmapany : ((subsRules p.2.subsections).map (fun y => (p.1, y.1, y.2))).any
          (fun x : String × String × Rule => x.2.2.id = rid) = false := by
        rw [anyMapList]
        exact hnone
      rw [show modifyRuleInSections rid c (p :: ps) =
        (modifyRuleInSections rid c ps).map (fun l => (p.1, p.2) :: l) from by
          simp [modifyRuleInSections, hm]]
      have hcons : (match (modifyRuleInSections rid c ps).map
            (fun l => (p.1, p.2) :: l) with
          | some s => s
          | none => p :: ps) =
          (p.1, p.2) :: (match modifyRuleInSections rid c ps with
            | some s => s
            | none => ps) := by
        cases modifyRuleInSections rid c ps with
        | some s => rfl
        | none => rfl
      rw [hcons]
      rw [show secsRules ((p.1, p.2) :: (match modifyRuleInSections rid c ps with
          | some s => s
          | none => ps)) =
        (subsRules p.2.subsections).map (fun y => (p.1, y.1, y.2)) ++ secsRules
          (match modifyRuleInSections rid c ps with
            | some s => s
            | none => ps) from rfl]
      rw [show secsRules (p :: ps) =
        (subsRules p.2.subsections).map (fun y => (p.1, y.1, y.2)) ++ secsRules ps from rfl]
      rw [replaceFirstBy_append, if_neg (by rw [hmapany]; exact Bool.false_ne_true), ih]

/-- The skeleton of a subsection list: every rule list emptied. -/
def eraseSubs (subs : List (String × Subsection)) : List (String × Subsection) :=
  subs.map (fun q => (q.1, { q.2 with rules := ([] : List Rule) }))

/-- The skeleton of a section list: every rule list emptied. -/
def eraseSecs (secs : List (String × Section)) : List (String × Section) :=
  secs.map (fun p => (p.1, { p.2 with subsections := eraseSubs p.2.subsections }))

theorem eraseRules_eq (rb : Rulebook) :
    eraseRules rb = { rb with sections := eraseSecs rb.sections } := rfl

theorem modifyRuleInSubsections_erase (rid : String) (c : RuleChanges)
    (subs : List (String × Subsection)) (s : List (String × Subsection))
    (h : modifyRuleInSubsections rid c subs = some s) :
    eraseSubs s = eraseSubs subs := by
  induction subs generalizing s with
  | nil => exact absurd h (by simp [modifyRuleInSubsections])
  | cons q qs ih =>
    cases hr : replaceFirstRule rid c q.2.rules with
    | some rs1 =>
      rw [show modifyRuleInSubsections rid c (q :: qs) =
        some ((q.1, { q.2 with rules := rs1 }) :: qs) from by
          simp [modifyRuleInSubsections, hr]] at h
      cases Option.some.inj h
      rfl
    | none =>
      rw [show modifyRuleInSubsections rid c (q :: qs) =
        (modifyRuleInSubsections rid c qs).map (fun l => (q.1, q.2) :: l) from by
          simp [modifyRuleInSubsections, hr]] at h
      cases hqs : modifyRuleInSubsections rid c qs with
      | some s1 =>
        rw [hqs] at h
        cases Option.some.inj h
        show eraseSubs ((q.1, q.2) :: s1) = eraseSubs (q :: qs)
        rw [show eraseSubs ((q.1, q.2) :: s1) =
          (q.1, { q.2 with rules := ([] : List Rule) }) :: eraseSubs s1 from rfl]
        rw [show eraseSubs (q :: qs) =
          (q.1, { q.2 with rules := ([] : List Rule) }) :: eraseSubs qs from rfl]
        rw [ih s1 hqs]
      | none =>
        rw [hqs] at h
        exact absurd h (by simp)

theorem modifyRuleInSections_erase (rid : String) (c : RuleChanges)
    (secs : List (String × Section)) (s : List (String × Section))
    (h : modifyRuleInSections rid c secs = some s) :
    eraseSecs s = eraseSecs secs := by
  induction secs generalizing s with
  | nil => exact absurd h (by simp [modifyRuleInSections])
  | cons p ps ih =>
    cases hm : modifyRuleInSubsections rid c p.2.subsections with
    | some subs1 =>
      rw [show modifyRuleInSections rid c (p :: ps) =
        some ((p.1, { p.2 with subsections := subs1 }) :: ps) from by
          simp [modifyRuleInSections, hm]] at h
      cases Option.some.inj h
      show eraseSecs ((p.1, { p.2 with subsections := subs1 }) :: ps) = eraseSecs (p :: ps)
      rw [show eraseSecs ((p.1, { p.2 with subsections := subs1 }) :: ps) =
        (p.1, { p.2 with subsections := eraseSubs subs1 }) :: eraseSecs ps from rfl]
      rw [show eraseSecs (p :: ps) =
        (p.1, { p.2 with subsections := eraseSubs p.2.subsections }) :: eraseSecs ps from rfl]
      rw [modifyRuleInSubsections_erase rid c p.2.subsections subs1 hm]
    | none =>
      rw [show modifyRuleInSections rid c (p :: ps) =
        (modifyRuleInSections rid c ps).map (fun l => (p.1, p.2) :: l) from by
          simp [modifyRuleInSections, hm]] at h
      cases hps : modifyRuleInSections rid c ps with
      | some s1 =>
        rw [hps] at h
        cases Option.some.inj h
        show eraseSecs ((p.1, p.2) :: s1) = eraseSecs (p :: ps)
        rw [show eraseSecs ((p.1, p.2) :: s1) =
          (p.1, { p.2 with subsections := eraseSubs p.2.subsections }) :: eraseSecs s1
            from rfl]
        rw [show eraseSecs (p :: ps) =
          (p.1, { p.2 with subsections := eraseSubs p.2.subsections }) :: eraseSecs ps
            from rfl]
        rw [ih s1 hps]
      | none =>
        rw [hps] at h
        exact absurd h (by simp)

/-- C4: on a rulebook containing a rule with the modifier's id, `modify_rule`
replaces exactly the first such rule in document traversal order by the same
rule with precisely the fields present in `changes` overridden and one
`"modified"` tag appended (`applyChanges`), leaving every other rule and the
whole document skeleton (section and subsection structure, titles, metadata)
unchanged. -/
theorem modify_rule_replaces_first (rb : Rulebook) (rid : String) (c : RuleChanges)
    (h : hasRuleWithId rb rid = true) :
    rulesWithPath (applyModifier rb (RuleModifier.modify_rule rid c)) =
        replaceFirstBy (fun x => x.2.2.id = rid)
          (fun x => (x.1, x.2.1, applyChanges x.2.2 c)) (rulesWithPath rb) ∧
      eraseRules (applyModifier rb (RuleModifier.modify_rule rid c)) = eraseRules rb := by
  constructor
  · rw [rulesWithPath_eq_secsRules, rulesWithPath_eq_secsRules]
    have hmain := modifyRuleInSections_getD rid c rb.sections
    cases hm : modifyRuleInSections rid c rb.sections with
    | some s =>
      rw [hm] at hmain
      rw [show applyModifier rb (RuleModifier.modify_rule rid c) =
        { rb with sections := s } from by simp [applyModifier, hm]]
      exact hmain
    | none =>
      rw [hm] at hmain
      rw [show applyModifier rb (RuleModifier.modify_rule rid c) = rb from by
        simp [applyModifier, hm]]
      exact hmain
  · cases hm : modifyRuleInSections rid c rb.sections with
    | some s =>
      rw [show applyModifier rb (RuleModifier.modify_rule rid c) =
        { rb with sections := s } from by simp [applyModifier, hm]]
      rw [eraseRules_eq, eraseRules_eq]
      rw [show ({ rb with sections := s } : Rulebook).sections = s from rfl]
      rw [modifyRuleInSections_erase rid c rb.sections s hm]
    | none =>
      rw [show applyModifier rb (RuleModifier.modify_rule rid c) = rb from by
        simp [applyModifier, hm]]

/-- Witness for C4 at the sample rulebook and a concrete change set. -/
theorem modify_rule_replaces_first_witness :
    hasRuleWithId sampleRulebook "combat.attacking.minimum_troops" = true ∧
      (rulesWithPath (applyModifier sampleRulebook
            (RuleModifier.modify_rule "combat.attacking.minimum_troops" sampleChanges)) =
          replaceFirstBy (fun x => x.2.2.id = "combat.attacking.minimum_troops")
            (fun x => (x.1, x.2.1, applyChanges x.2.2 sampleChanges))
            (rulesWithPath sampleRulebook) ∧
        eraseRules (applyModifier sampleRulebook
            (RuleModifier.modify_rule "combat.attacking.minimum_troops" sampleChanges)) =
          eraseRules sampleRulebook) :=
  ⟨by decide, modify_rule_replaces_first sampleRulebook "combat.attacking.minimum_troops"
    sampleChanges (by decide)⟩

end RiskLegacy
